import Mathlib

/-!
Shallow embedding of the gadget-discovery core of ropgadget-rs.

The Rust sources are embedded as executable Lean definitions:
machine integers become Nat (with an explicit mod 2 ^ 64 where u64
wrapping matters), Rust vectors become lists, and code paths that
abort (index out of bounds, Vec::windows with size 0, the explicit
abort in Gadget::new) are modelled with Option, none standing for the
abort.  The disassembler itself is an external collaborator; it is
modelled as a function parameter, and the group-filtering layer that
ropgadget-rs puts on top of it (engine.rs, cs_disassemble) is embedded
explicitly.
-/

namespace RopGadget

/-- Semantic group of a decoded instruction (gadget.rs, InstructionGroup). -/
inductive InstructionGroup
  | Undefined
  | Ret
  | Jump
  | Call
  | Int
  | Iret
  | Privileged
  deriving DecidableEq, Repr

/-- Decoded instruction (gadget.rs, Instruction). -/
structure Instruction where
  size : Nat
  raw : List Nat
  address : Nat
  group : InstructionGroup
  mnemonic : String
  operands : Option String
  deriving DecidableEq, Repr

/-- Textual rendering of one instruction (gadget.rs, Instruction::text).
The colored crate renders cyan as ESC[36m, bold as ESC[1m, reset as ESC[0m. -/
def Instruction.text (i : Instruction) (use_color : Bool) : String :=
  let mnemo := if use_color then "\x1b[36m" ++ i.mnemonic ++ "\x1b[0m" else i.mnemonic
  let op :=
    match i.operands with
    | some x => if use_color then " " ++ ("\x1b[1m" ++ x ++ "\x1b[0m") else " " ++ x
    | none => ""
  mnemo ++ op

/-- Gadget (gadget.rs, Gadget). -/
structure Gadget where
  address : Nat
  insns : List Instruction
  size : Nat
  raw : List Nat
  deriving DecidableEq, Repr

/-- Constructor of Gadget (gadget.rs, Gadget::new).  The Rust function
aborts via std::panic::panic_any when the instruction vector is empty;
that abort is modelled as none. -/
def Gadget.new : List Instruction → Option Gadget
  | [] => none
  | insn :: rest =>
    some
      { size := ((insn :: rest).map (fun x => x.size)).sum
        raw := ((insn :: rest).map (fun x => x.raw)).flatten
        address := insn.address
        insns := insn :: rest }

/-- Textual rendering of a gadget (gadget.rs, Gadget::text): the
concatenation of the instruction texts, each followed by " ; ". -/
def Gadget.text (g : Gadget) (use_color : Bool) : String :=
  (g.insns.map (fun i => i.text use_color ++ " ; ")).foldr (· ++ ·) ""

/-- Profile strategy of a session (session.rs, RopProfileStrategy; the
variants are the ones matched in gadget.rs). -/
inductive RopProfileStrategy
  | Fast
  | Complete
  deriving DecidableEq, Repr

/-- Output sink of a session (session.rs, RopGadgetOutput; the variants
are the ones matched in lib.rs). -/
inductive RopGadgetOutput
  | none
  | console
  | file (filename : String)
  deriving DecidableEq, Repr

/-- Session configuration, restricted to the fields the embedded code
reads (session.rs / lib.rs / gadget.rs). -/
structure Session where
  gadget_type : InstructionGroup
  profile_type : RopProfileStrategy
  unique_only : Bool
  use_color : Bool
  output : RopGadgetOutput
  nb_thread : Nat
  deriving DecidableEq, Repr

/-- Executable section (section.rs, Section). -/
structure Section where
  start_address : Nat
  end_address : Nat
  name : Option String
  permission : Nat
  data : List Nat
  deriving DecidableEq, Repr

/- ## CPU profiles (cpu/mod.rs, cpu/x86.rs, cpu/arm.rs)

Pure per-architecture data: arch tag, pointer size, instruction step and
the three pattern tables, each pattern being an (opcode, mask) pair of
byte lists.  The trait method max_rewind_size is implemented in the
sources only by Arm and Arm64 (both 16); X86 and X64 provide no value
for it, so it is kept out of the profile structure and stated as
standalone constants for the two ARM profiles. -/

/-- Arch tag (cpu/mod.rs, CpuType). -/
inductive CpuType
  | Unknown
  | X86
  | X64
  | ARM
  | ARM64
  deriving DecidableEq, Repr

/-- Per-architecture profile data (cpu/mod.rs, trait Cpu). -/
structure CpuProfile where
  cpu_type : CpuType
  ptrsize : Nat
  insn_step : Nat
  ret_insns : List (List Nat × List Nat)
  call_insns : List (List Nat × List Nat)
  jmp_insns : List (List Nat × List Nat)
  deriving DecidableEq, Repr

/-- The X86 profile (cpu/x86.rs, impl Cpu for X86). -/
def X86.profile : CpuProfile :=
  { cpu_type := CpuType.X86
    ptrsize := 4
    insn_step := 1
    ret_insns :=
      [ ([0xc3], [0xff]),
        ([0xcb], [0xff]),
        ([0xc2, 0x00, 0x00], [0xff, 0x00, 0x00]),
        ([0xcf, 0x00, 0x00], [0xff, 0x00, 0x00]) ]
    call_insns :=
      [ ([0xe8, 0x00, 0x00, 0x00, 0x00], [0xff, 0x00, 0x00, 0x00, 0x00]),
        ([0xff, 0xd0], [0xff, 0xf0]),
        ([0xff, 0b00010000], [0xff, 0b11110000]),
        ([0xff, 0b01010001, 0], [0xff, 0b11110000, 0]) ]
    jmp_insns :=
      [ ([0xe9, 0, 0, 0, 0], [0xff, 0, 0, 0, 0]),
        ([0xff, 0xe7], [0xff, 0xf8]) ] }

/-- The X64 profile (cpu/x86.rs, impl Cpu for X64). -/
def X64.profile : CpuProfile :=
  { cpu_type := CpuType.X64
    ptrsize := 8
    insn_step := 1
    ret_insns :=
      [ ([0xc3], [0xff]),
        ([0xcb], [0xff]),
        ([0xc2, 0x00, 0x00], [0xff, 0x00, 0x00]),
        ([0xcf, 0x00, 0x00], [0xff, 0x00, 0x00]) ]
    call_insns :=
      [ ([0xe8, 0x00, 0x00, 0x00, 0x00], [0xff, 0x00, 0x00, 0x00, 0x00]),
        ([0xff, 0xd0], [0xff, 0xf0]),
        ([0x41, 0xff, 0xd0], [0xff, 0xff, 0xf0]),
        ([0xff, 0b00010000], [0xff, 0b11110000]),
        ([0x41, 0xff, 0b00010000], [0x41, 0xff, 0b11110000]),
        ([0xff, 0b01010001, 0], [0xff, 0b11110000, 0]),
        ([0x41, 0xff, 0b01010001, 0], [0xff, 0xff, 0b11110000, 0]) ]
    jmp_insns :=
      [ ([0xff, 0xe0], [0xff, 0xf8]),
        ([0x41, 0xff, 0xe0], [0xff, 0xff, 0xf8]),
        ([0xeb, 0x00], [0xff, 0x00]),
        ([0xe9, 0, 0, 0, 0], [0xff, 0, 0, 0, 0]) ] }

/-- The Arm profile (cpu/arm.rs, impl Cpu for Arm).  The source writes
the constants big-endian and byte-reverses them at table build time. -/
def Arm.profile : CpuProfile :=
  { cpu_type := CpuType.ARM
    ptrsize := 4
    insn_step := 4
    ret_insns :=
      [ ([0xd6, 0x5f, 0x03, 0xc0].reverse, [0xff, 0xff, 0xff, 0xff].reverse) ]
    call_insns :=
      [ ([0b11010001, 0b00101111, 0b11111111, 0b00010000].reverse,
         [0b11111111, 0b11111111, 0b11111111, 0b11110000].reverse) ]
    jmp_insns := [] }

/-- The rewind bound of the Arm profile (cpu/arm.rs). -/
def Arm.max_rewind_size : Nat := 16

/-- The Arm64 profile (cpu/arm.rs, impl Cpu for Arm64). -/
def Arm64.profile : CpuProfile :=
  { cpu_type := CpuType.ARM64
    ptrsize := 8
    insn_step := 4
    ret_insns :=
      [ ([0xd6, 0x5f, 0x03, 0xc0].reverse, [0xff, 0xff, 0xff, 0xff].reverse) ]
    call_insns :=
      [ ([0b11010110, 0b00111111, 0b00000000, 0b00000000].reverse,
         [0b11111111, 0b11111111, 0b11110000, 0b00011111].reverse) ]
    jmp_insns :=
      [ ([0b11010110, 0b00011111, 0b00000000, 0b00000000].reverse,
         [0b11111111, 0b11111111, 0b11110000, 0b00011111].reverse) ] }

/-- The rewind bound of the Arm64 profile (cpu/arm.rs). -/
def Arm64.max_rewind_size : Nat := 16

/-- Profile derivation from the machine tag (format/mod.rs,
ExecutableFileFormat::cpu).  The Unknown arm of the Rust match aborts,
modelled as none.  Note that the source returns the Arm64 profile for
the ARM tag and the Arm profile for the ARM64 tag. -/
def ExecutableFileFormat.cpu : CpuType → Option CpuProfile
  | CpuType.X86 => some X86.profile
  | CpuType.X64 => some X64.profile
  | CpuType.ARM => some Arm64.profile
  | CpuType.ARM64 => some Arm.profile
  | CpuType.Unknown => none

/-- Well-formedness of one (opcode, mask) pattern pair as the data
model states it: equal lengths, and every opcode byte is covered by the
mask, opcode land (0xff xor mask) = 0. -/
def pattern_pair_wf (p : List Nat × List Nat) : Bool :=
  decide (p.1.length = p.2.length) &&
    (List.range p.1.length).all
      (fun i => decide (p.1.getD i 0 &&& (0xff ^^^ p.2.getD i 0) = 0))

/- ## Pattern matcher (gadget.rs, collect_previous_instructions)

The Rust loop slides Vec::windows (len opcode) over the memory chunk
and keeps the offsets whose window satisfies
(byte land mask.get i) = opcode.get i for every i, comparing through a
lazily evaluated iterator.  Two aborts are modelled with none:
Vec::windows with a window size of 0, and the index mask.get i running
past the end of the mask vector while the comparison is still
undecided. -/

/-- Lazy iterator comparison of a window against a pattern
(gadget.rs line 166: the chunk is mapped through byte land mask and
compared with the opcode bytes).  A mask access out of bounds while the
comparison is undecided is the abort case, modelled none. -/
def masked_window_eq : List Nat → List Nat → List Nat → Option Bool
  | [], _, [] => some true
  | [], _, _ :: _ => some false
  | _ :: _, [], _ => none
  | _ :: _, _ :: _, [] => some false
  | c :: cs, m :: ms, b :: bs =>
    if c &&& m = b then masked_window_eq cs ms bs else some false

/-- Enumerated sliding windows of width n over a byte list
(Vec::windows plus enumerate; defined for n at least 1, the n = 0 abort
is handled by the caller). -/
def windows_enumerated (n : Nat) (memory : List Nat) : List (Nat × List Nat) :=
  (List.range (memory.length + 1 - n)).map (fun k => (k, (memory.drop k).take n))

/-- Scan of all windows for one pattern, collecting (offset, length)
pairs; none when the window comparison aborts. -/
def scan_windows (bytes mask : List Nat) : List (Nat × List Nat) → Option (List (Nat × Nat))
  | [] => some []
  | (k, w) :: rest =>
    match masked_window_eq w mask bytes with
    | none => none
    | some true => (scan_windows bytes mask rest).map (fun out => (k, bytes.length) :: out)
    | some false => scan_windows bytes mask rest

/-- Candidate search (gadget.rs, collect_previous_instructions): for
each (opcode, mask) pair scan the memory chunk; a pattern with at least
one match stops the loop under the Fast strategy.  none models the
aborts of the window scan, including Vec::windows called with an empty
opcode. -/
def collect_previous_instructions (session : Session) (group : List (List Nat × List Nat))
    (memory_chunk : List Nat) : Option (List (Nat × Nat)) :=
  match group with
  | [] => some []
  | (bytes, mask) :: rest =>
    if bytes.length = 0 then none
    else
      match scan_windows bytes mask (windows_enumerated bytes.length memory_chunk) with
      | none => none
      | some chunks =>
        if 0 < chunks.length then
          match session.profile_type with
          | RopProfileStrategy.Fast => some chunks
          | RopProfileStrategy.Complete =>
            (collect_previous_instructions session rest memory_chunk).map
              (fun out => chunks ++ out)
        else collect_previous_instructions session rest memory_chunk

/- ## Specification-side candidate search (spec section 4.2)

The following two definitions are written from the words of the
specification, not from the source, and exist to be compared with
collect_previous_instructions: for each (opcode, mask) pair slide a
window of len opcode over bytes and at each offset k keep (k, len
opcode) when (bytes.get (k + i)) land (mask.get i) = opcode.get i for
all i; Fast stops after the first pattern yielding at least one match,
Complete concatenates all matches in declaration order. -/

/-- Matches of a single pattern, as the specification words it. -/
def spec_pattern_matches (bytes opcode mask : List Nat) : List (Nat × Nat) :=
  (List.range (bytes.length + 1 - opcode.length)).filterMap
    (fun k =>
      if (List.range opcode.length).all
          (fun i => decide (bytes.getD (k + i) 0 &&& mask.getD i 0 = opcode.getD i 0))
      then some (k, opcode.length)
      else none)

/-- Candidate search as the specification words it. -/
def find_candidates_spec (bytes : List Nat) (strategy : RopProfileStrategy) :
    List (List Nat × List Nat) → List (Nat × Nat)
  | [] => []
  | (opcode, mask) :: rest =>
    let ms := spec_pattern_matches bytes opcode mask
    match strategy with
    | RopProfileStrategy.Complete => ms ++ find_candidates_spec bytes strategy rest
    | RopProfileStrategy.Fast =>
      if ms.isEmpty then find_candidates_spec bytes strategy rest else ms

/- ## Capstone layer (engine.rs, CapstoneDisassembler::cs_disassemble)

The decoding itself (capstone disasm_all) is an external collaborator
and is a function parameter.  What the source adds on top, and what is
embedded here, is the filter that walks the decoded instructions from
the last one backward and cuts the sequence at the first Jump, Call or
Ret instruction that is not in the terminator position; the match arms
for Privileged, Int and Iret are commented out in the source and hence
do not cut. -/

/-- Backward filter of cs_disassemble (engine.rs lines 241 to 255): the
candidates are processed in reverse order, each prepended to the
accumulator, stopping at a Jump, Call or Ret instruction once the
accumulator is non-empty. -/
def cs_filter_rop : List Instruction → List Instruction → List Instruction
  | acc, [] => acc
  | acc, insn :: rest =>
    match insn.group with
    | InstructionGroup.Jump =>
      if 0 < acc.length then acc else cs_filter_rop (insn :: acc) rest
    | InstructionGroup.Call =>
      if 0 < acc.length then acc else cs_filter_rop (insn :: acc) rest
    | InstructionGroup.Ret =>
      if 0 < acc.length then acc else cs_filter_rop (insn :: acc) rest
    | _ => cs_filter_rop (insn :: acc) rest

/-- Disassembly entry point of the capstone engine (engine.rs,
cs_disassemble): none when capstone decodes nothing, otherwise the
decoded instructions run through the backward filter. -/
def cs_disassemble (decode : List Nat → Nat → List Instruction)
    (code : List Nat) (address : Nat) : Option (List Instruction) :=
  let cs_insns := decode code address
  if cs_insns.length = 0 then none
  else some (cs_filter_rop [] cs_insns.reverse)

/- ## Backward walker (gadget.rs, find_gadgets_from_position) -/

/-- Wrapping u64 subtraction, used where the source computes sz - step
on usize values (release-mode wrapping semantics); exact for arguments
below 2 ^ 64. -/
def wrapping_sub64 (a b : Nat) : Nat :=
  if b ≤ a then a - b else 2 ^ 64 + a - b

/-- Outcome of one walker invocation: the emitted gadgets in emission
order, the number of disassembly calls performed, whether the walk
ended by propagating a cursor seek error, and whether the modelling
fuel ran out (never the case for a positive step, see the termination
theorem). -/
structure WalkOutcome where
  gadgets : List Gadget
  calls : Nat
  err : Bool
  fuel_out : Bool
  deriving DecidableEq, Repr

/-- Emission step of the walker loop (gadget.rs lines 283 to 299): on a
decoded instruction list, push a new gadget when the list is non-empty,
its last instruction carries the requested terminator group, and no
gadget with the same start address was pushed yet for this candidate. -/
def walk_emit (gadget_type : InstructionGroup) (gadgets : List Gadget)
    (x : List Instruction) : List Gadget :=
  match x.getLast? with
  | some last_insn =>
    if gadget_type = last_insn.group then
      match Gadget.new x with
      | some gadget =>
        if gadgets.all (fun g => decide (g.address ≠ gadget.address)) then
          gadgets ++ [gadget]
        else gadgets
      | none => gadgets
    else gadgets
  | none => gadgets

/-- Loop body of find_gadgets_from_position (gadget.rs lines 253 to
312), made structural on an explicit fuel argument.  Each iteration:
break once the candidate slice would leave the window; seek the cursor
(an error when sz exceeds the window length, since the seek position
would be negative); read the last sz bytes as the candidate and
disassemble them at the address base + window length - sz; on a decode,
run the emission step; on a failed decode count an invalid run of
max_invalid_size as a break; then grow sz by step. -/
def walk_loop (engine : List Nat → Nat → Option (List Instruction))
    (gadget_type : InstructionGroup) (start_address s : Nat) (data : List Nat)
    (max_invalid_size step : Nat) :
    Nat → Nat → Nat → List Gadget → Nat → WalkOutcome
  | 0, _, _, gadgets, calls => ⟨gadgets, calls, false, true⟩
  | fuel + 1, sz, nb_invalid, gadgets, calls =>
    if data.length ≤ wrapping_sub64 sz step then ⟨gadgets, calls, false, false⟩
    else if data.length < sz then ⟨gadgets, calls, true, false⟩
    else
      match engine (data.drop (data.length - sz))
          ((start_address + s + data.length - sz) % 2 ^ 64) with
      | some x =>
        walk_loop engine gadget_type start_address s data max_invalid_size step
          fuel (sz + step) 0 (walk_emit gadget_type gadgets x) (calls + 1)
      | none =>
        if nb_invalid + 1 = max_invalid_size then ⟨gadgets, calls + 1, false, false⟩
        else
          walk_loop engine gadget_type start_address s data max_invalid_size step
            fuel (sz + step) (nb_invalid + 1) gadgets (calls + 1)

/-- Backward walker (gadget.rs, find_gadgets_from_position).  The cpu
argument of the source contributes exactly two scalars here, its
max_rewind_size and its insn_step.  The initial slice
section.data with bounds s to initial_position + initial_len aborts
when the upper bound exceeds the section, modelled none.  The fuel
passed to the loop is sufficient for any positive step. -/
def find_gadgets_from_position (session : Session)
    (engine : List Nat → Nat → Option (List Instruction)) (sec : Section)
    (initial_position initial_len : Nat) (max_invalid_size insn_step : Nat) :
    Option WalkOutcome :=
  if sec.data.length < initial_position + initial_len then none
  else
    let s := if initial_position < max_invalid_size then 0
             else initial_position - max_invalid_size
    let data := (sec.data.take (initial_position + initial_len)).drop s
    some (walk_loop engine session.gadget_type sec.start_address s data
      max_invalid_size insn_step (data.length + 2) initial_len 0 [] 0)

/- ## Output pipeline (lib.rs, collect_all_gadgets)

The scan itself (spawning workers over sections) is abstracted as the
input list of found gadgets; the embedded part is everything lib.rs
does after the workers are joined: optional deduplication, the final
sort by address, and the emission to the chosen sink. -/

/-- ASCII lowercase folding of one character, as u8::to_ascii_lowercase. -/
def to_ascii_lowercase (c : Char) : Char :=
  if 65 ≤ c.toNat ∧ c.toNat ≤ 90 then Char.ofNat (c.toNat + 32) else c

/-- ASCII case-insensitive string equality (str::eq_ignore_ascii_case). -/
def eq_ignore_ascii_case (a b : String) : Bool :=
  a.data.map to_ascii_lowercase == b.data.map to_ascii_lowercase

/-- Inner loop of Vec::dedup_by: y is compared against the last element
that was retained, and dropped when same_bucket y last holds. -/
def dedup_by_go (same_bucket : α → α → Bool) (last : α) : List α → List α
  | [] => []
  | y :: ys =>
    if same_bucket y last then dedup_by_go same_bucket last ys
    else y :: dedup_by_go same_bucket y ys

/-- Vec::dedup_by: removes all but the first of consecutive elements
satisfying the given relation, comparing each element with the last
retained one. -/
def dedup_by (same_bucket : α → α → Bool) : List α → List α
  | [] => []
  | x :: xs => x :: dedup_by_go same_bucket x xs

/-- Hex rendering with a 0x prefix and no padding, as the Rust format
specifier sharp-x used for file output lines. -/
def fmt_sharp_hex (n : Nat) : String :=
  "0x" ++ String.mk (Nat.toDigits 16 n)

/-- Zero-padded hex rendering with a 0x prefix, as the Rust format
specifiers 016x and 08x used for console output lines. -/
def fmt_hex_pad (width n : Nat) : String :=
  let ds := Nat.toDigits 16 n
  "0x" ++ String.mk (List.replicate (width - ds.length) '0' ++ ds)

/-- Emission result of the output pipeline: nothing, console lines
(println adds the line break), or file lines (the line break is part of
the written string, as in the source). -/
inductive EmittedOutput
  | none
  | console (lines : List String)
  | file (lines : List String)
  deriving DecidableEq, Repr

/-- Lexicographic comparison of character lists by code point; on
UTF-8 encoded text the code-point order coincides with the byte order
that the Rust String Ord instance uses. -/
def char_list_le : List Char → List Char → Bool
  | [], _ => true
  | _ :: _, [] => false
  | c :: cs, d :: ds =>
    if c.toNat < d.toNat then true
    else if d.toNat < c.toNat then false
    else char_list_le cs ds

/-- String comparison as the Rust String Ord instance orders keys in
sort_by_key: byte-lexicographic. -/
def string_le (a b : String) : Bool :=
  char_list_le a.data b.data

/-- Stable sort of the gadget vector by its uncolored text, as
gadgets.sort_by_key with key text(false). -/
def sort_by_text (l : List Gadget) : List Gadget :=
  List.insertionSort
    (fun a b => string_le (Gadget.text a false) (Gadget.text b false) = true) l

/-- Stable sort of the gadget vector by address, as gadgets.sort_by on
the address comparison. -/
def sort_by_address (l : List Gadget) : List Gadget :=
  List.insertionSort (fun a b => a.address ≤ b.address) l

/-- Post-collection phase of lib.rs, collect_all_gadgets: when the
session asks for unique gadgets, sort by uncolored text and remove
adjacent duplicates under ASCII case-insensitive equality; then sort by
address; then emit.  Console lines use the zero-padded address (wrapped
in red when color is on) and the session color flag for the text; file
lines always use the uncolored text and print entry_point + address
(u64 wrapping addition) with the unpadded hex format, one gadget per
line with a trailing line break. -/
def collect_all_gadgets (sess : Session) (is_64b : Bool) (entry_point : Nat)
    (found : List Gadget) : List Gadget × EmittedOutput :=
  let gadgets :=
    if sess.unique_only then
      dedup_by (fun a b => eq_ignore_ascii_case (Gadget.text a false) (Gadget.text b false))
        (sort_by_text found)
    else found
  let gadgets := sort_by_address gadgets
  let emitted :=
    match sess.output with
    | RopGadgetOutput.none => EmittedOutput.none
    | RopGadgetOutput.console =>
      EmittedOutput.console
        (gadgets.map (fun g =>
          let addr := if is_64b then fmt_hex_pad 16 g.address else fmt_hex_pad 8 g.address
          let addr := if sess.use_color then "\x1b[31m" ++ addr ++ "\x1b[0m" else addr
          addr ++ " | " ++ Gadget.text g sess.use_color))
    | RopGadgetOutput.file _ =>
      EmittedOutput.file
        (gadgets.map (fun g =>
          fmt_sharp_hex ((entry_point + g.address) % 2 ^ 64) ++ " | " ++
            Gadget.text g false ++ "\n"))
  (gadgets, emitted)

/- ## Concrete fixtures used by the witnesses and counterexamples -/

/-- Session with the default terminator group Ret and the Fast strategy. -/
def fastSess : Session := ⟨InstructionGroup.Ret, RopProfileStrategy.Fast, false, false, RopGadgetOutput.none, 2⟩

/-- Session asking for unique gadgets only. -/
def uniqSess : Session := ⟨InstructionGroup.Ret, RopProfileStrategy.Fast, true, false, RopGadgetOutput.none, 2⟩

/-- Session writing to a file sink. -/
def fileSess : Session := ⟨InstructionGroup.Ret, RopProfileStrategy.Fast, false, false, RopGadgetOutput.file "rop.txt", 2⟩

/-- One-byte ret instruction at a given address. -/
def retInsn (a : Nat) : Instruction := ⟨1, [0xc3], a, InstructionGroup.Ret, "ret", none⟩

/-- Two-byte int 0x80 instruction at a given address. -/
def intInsn (a : Nat) : Instruction := ⟨2, [0xcd, 0x80], a, InstructionGroup.Int, "int", some "0x80"⟩

/-- Engine decoding exactly the single ret byte. -/
def engA : List Nat → Nat → Option (List Instruction) :=
  fun code addr => if code == [0xc3] then some [retInsn addr] else none

/-- Section holding one ret byte at address 0x1000. -/
def secA : Section := ⟨0x1000, 0x1001, none, 5, [0xc3]⟩

/-- Gadget emitted by the walk over secA. -/
def gA : Gadget := ⟨0x1000, [retInsn 0x1000], 1, [0xc3]⟩

/-- Raw decoder for the int 0x80 then ret byte sequence: capstone would
decode cd 80 c3 as int 0x80 followed by ret. -/
def decodeB : List Nat → Nat → List Instruction :=
  fun code addr =>
    if code == [0xc3] then [retInsn addr]
    else if code == [0xcd, 0x80, 0xc3] then [intInsn addr, retInsn (addr + 2)]
    else []

/-- Section holding the bytes cd 80 c3 at address 0x2000. -/
def secB : Section := ⟨0x2000, 0x2003, none, 5, [0xcd, 0x80, 0xc3]⟩

/-- Section of twenty bytes used to count walker disassembly calls. -/
def secC : Section := ⟨0x3000, 0x3014, none, 5, List.replicate 20 0⟩

/-- Engine that decodes every slice to an empty instruction list. -/
def engC : List Nat → Nat → Option (List Instruction) := fun _ _ => some []

/-- One-instruction gadget with a single-character mnemonic, used to
exercise the deduplication step. -/
def mkG (addr : Nat) (m : String) : Gadget :=
  ⟨addr, [⟨1, [0x90], addr, InstructionGroup.Undefined, m, none⟩], 1, [0x90]⟩

/-- One-instruction ret gadget at address 0x1000. -/
def gRet : Gadget := ⟨0x1000, [retInsn 0x1000], 1, [0xc3]⟩

/- ## Claim C5: well-formedness of the pattern tables -/

/-- C5: the data-model invariant for patterns demands equal opcode and
mask lengths together with opcode land (not mask) = 0 on every byte.
The length half holds for every table of every profile, but the mask
coverage half fails: the X86 jmp table entry ([0xff, 0xe7], [0xff, 0xf8])
has 0xe7 land (not 0xf8) = 7, so the pattern labelled JMP REG32 can
never match any byte (the X64 analogue uses 0xe0 correctly); the X86
and X64 call tables likewise carry entries with opcode byte 0x51
against mask byte 0xf0.  This theorem evaluates the tables. -/
theorem pattern_tables_eval :
    ((X86.profile.ret_insns ++ X86.profile.call_insns ++ X86.profile.jmp_insns ++
      X64.profile.ret_insns ++ X64.profile.call_insns ++ X64.profile.jmp_insns ++
      Arm.profile.ret_insns ++ Arm.profile.call_insns ++ Arm.profile.jmp_insns ++
      Arm64.profile.ret_insns ++ Arm64.profile.call_insns ++ Arm64.profile.jmp_insns).all
        (fun p => decide (p.1.length = p.2.length)) = true) ∧
    X86.profile.ret_insns.all pattern_pair_wf = true ∧
    X64.profile.ret_insns.all pattern_pair_wf = true ∧
    X64.profile.jmp_insns.all pattern_pair_wf = true ∧
    Arm.profile.ret_insns.all pattern_pair_wf = true ∧
    Arm.profile.call_insns.all pattern_pair_wf = true ∧
    Arm64.profile.ret_insns.all pattern_pair_wf = true ∧
    Arm64.profile.call_insns.all pattern_pair_wf = true ∧
    Arm64.profile.jmp_insns.all pattern_pair_wf = true ∧
    X86.profile.jmp_insns.all pattern_pair_wf = false ∧
    X86.profile.jmp_insns.getD 1 ([], []) = ([0xff, 0xe7], [0xff, 0xf8]) ∧
    0xe7 &&& (0xff ^^^ 0xf8) = 7 ∧
    X86.profile.call_insns.all pattern_pair_wf = false ∧
    X64.profile.call_insns.all pattern_pair_wf = false := by
  decide

/- ## Claim C8: profile derivation from the machine tag -/

/-- C8: the claim says the derived profile carries the same arch tag as
the binary machine tag, with the pointer size and stride fixed for that
architecture.  The source maps X86 and X64 correctly but swaps the two
ARM arms: an ARM64 machine tag yields the Arm profile (arch tag ARM,
pointer size 4) and an ARM machine tag yields the Arm64 profile (arch
tag ARM64, pointer size 8).  This theorem evaluates the derivation. -/
theorem cpu_profile_swap_eval :
    ExecutableFileFormat.cpu CpuType.X86 = some X86.profile ∧
    ExecutableFileFormat.cpu CpuType.X64 = some X64.profile ∧
    (ExecutableFileFormat.cpu CpuType.ARM64).map CpuProfile.cpu_type = some CpuType.ARM ∧
    (ExecutableFileFormat.cpu CpuType.ARM64).map CpuProfile.ptrsize = some 4 ∧
    (ExecutableFileFormat.cpu CpuType.ARM64).map CpuProfile.insn_step = some 4 ∧
    (ExecutableFileFormat.cpu CpuType.ARM).map CpuProfile.cpu_type = some CpuType.ARM64 ∧
    (ExecutableFileFormat.cpu CpuType.ARM).map CpuProfile.ptrsize = some 8 ∧
    CpuType.ARM ≠ CpuType.ARM64 := by
  decide

/- ## Claim C10: the Gadget constructor -/

/-- C10: Gadget::new aborts (panic, not an error value) on an empty
instruction vector, modelled as none; on any non-empty vector it
returns a gadget whose address is the first instruction address, whose
size is the sum of the instruction sizes and whose raw bytes are the
concatenation of the instruction raw bytes. -/
theorem gadget_new_spec (first : Instruction) (rest : List Instruction) :
    Gadget.new [] = none ∧
    ∃ g, Gadget.new (first :: rest) = some g ∧
      g.insns = first :: rest ∧
      g.address = first.address ∧
      g.size = ((first :: rest).map (fun i => i.size)).sum ∧
      g.raw = ((first :: rest).map (fun i => i.raw)).flatten := by
  exact ⟨rfl, _, rfl, rfl, rfl, rfl, rfl⟩

/- ## Claim C4: counterexample to the unrestricted matcher contract -/

/-- C4 counterexample: with the degenerate but length-balanced pattern
pair of empty opcode and empty mask, the source calls Vec::windows with
size 0, which aborts, while the specification formula (vacuously true
for every offset) promises the match list [(0, 0), (1, 0), (2, 0)] on a
two-byte window and promises that the operation never errors. -/
theorem collect_previous_instructions_counterexample :
    collect_previous_instructions fastSess [(([] : List Nat), ([] : List Nat))] [0, 0] = none ∧
    find_candidates_spec [0, 0] RopProfileStrategy.Fast
      [(([] : List Nat), ([] : List Nat))] = [(0, 0), (1, 0), (2, 0)] := by
  exact ⟨rfl, rfl⟩

/- ## Walker invariants -/

/-- Helper: a successful Gadget.new keeps the instruction list. -/
theorem gadget_new_insns {x : List Instruction} {g : Gadget}
    (h : Gadget.new x = some g) : g.insns = x := by
  cases x with
  | nil => simp [Gadget.new] at h
  | cons a l =>
    simp only [Gadget.new, Option.some.injEq] at h
    subst h
    rfl

/-- Helper: a successful Gadget.new takes the first instruction address. -/
theorem gadget_new_address {first : Instruction} {rest : List Instruction} {g : Gadget}
    (h : Gadget.new (first :: rest) = some g) : g.address = first.address := by
  simp only [Gadget.new, Option.some.injEq] at h
  subst h
  rfl

/-- Helper: the emission step preserves any predicate that holds of the
accumulated gadgets and of every gadget built from a decoded list whose
last instruction carries the requested group. -/
theorem walk_emit_inv (gt : InstructionGroup) (gadgets : List Gadget)
    (x : List Instruction) (Q : Gadget → Prop) (hinv : ∀ g ∈ gadgets, Q g)
    (hnew : ∀ g last_insn, x.getLast? = some last_insn → gt = last_insn.group →
      Gadget.new x = some g → Q g) :
    ∀ g ∈ walk_emit gt gadgets x, Q g := by
  intro g hg
  unfold walk_emit at hg
  cases hlast : x.getLast? with
  | none => simp only [hlast] at hg; exact hinv g hg
  | some last_insn =>
    simp only [hlast] at hg
    by_cases hgt : gt = last_insn.group
    · rw [if_pos hgt] at hg
      cases hne : Gadget.new x with
      | none => simp only [hne] at hg; exact hinv g hg
      | some gadget =>
        simp only [hne] at hg
        by_cases hfresh : gadgets.all (fun g => decide (g.address ≠ gadget.address)) = true
        · rw [if_pos hfresh] at hg
          rcases List.mem_append.mp hg with hgl | hgr
          · exact hinv g hgl
          · have hgeq : g = gadget := by simpa using hgr
            subst hgeq
            exact hnew g last_insn hlast hgt hne
        · rw [if_neg hfresh] at hg; exact hinv g hg
    · rw [if_neg hgt] at hg; exact hinv g hg

/-- Helper: every gadget in the loop result either was accumulated
already or was built, at some candidate size within the window, from a
decoded list whose last instruction carries the requested group. -/
theorem walk_loop_emitted (engine : List Nat → Nat → Option (List Instruction))
    (gt : InstructionGroup) (sa s : Nat) (data : List Nat) (W st : Nat)
    (Q : Gadget → Prop)
    (hQ : ∀ sz x g last_insn, sz ≤ data.length →
      engine (data.drop (data.length - sz)) ((sa + s + data.length - sz) % 2 ^ 64) = some x →
      x.getLast? = some last_insn → gt = last_insn.group → Gadget.new x = some g → Q g) :
    ∀ fuel sz nb gadgets calls, (∀ g ∈ gadgets, Q g) →
      ∀ g ∈ (walk_loop engine gt sa s data W st fuel sz nb gadgets calls).gadgets, Q g := by
  intro fuel
  induction fuel with
  | zero => intro sz nb gadgets calls hinv; exact hinv
  | succ fuel ih =>
    intro sz nb gadgets calls hinv
    rw [walk_loop]
    by_cases h1 : data.length ≤ wrapping_sub64 sz st
    · rw [if_pos h1]; exact hinv
    rw [if_neg h1]
    by_cases h2 : data.length < sz
    · rw [if_pos h2]; exact hinv
    rw [if_neg h2]
    cases heng : engine (data.drop (data.length - sz)) ((sa + s + data.length - sz) % 2 ^ 64) with
    | some x =>
      exact ih (sz + st) 0 _ (calls + 1)
        (walk_emit_inv gt gadgets x Q hinv
          (fun g last_insn hlast hgt hnew =>
            hQ sz x g last_insn (Nat.le_of_not_lt h2) heng hlast hgt hnew))
    | none =>
      by_cases h3 : nb + 1 = W
      · rw [if_pos h3]; exact hinv
      · rw [if_neg h3]; exact ih (sz + st) (nb + 1) gadgets (calls + 1) hinv

/- ## Claim C2: the terminator invariant -/

/-- C2: every gadget emitted by the walker is non-empty and the group
of its last instruction equals the requested terminator group of the
session; the walker pushes a gadget only after checking that very
condition on the decoded list. -/
theorem find_gadgets_terminator (session : Session)
    (engine : List Nat → Nat → Option (List Instruction)) (sec : Section)
    (pos len W st : Nat) (o : WalkOutcome)
    (ho : find_gadgets_from_position session engine sec pos len W st = some o) :
    ∀ g ∈ o.gadgets, ∃ last_insn, g.insns.getLast? = some last_insn ∧
      last_insn.group = session.gadget_type := by
  unfold find_gadgets_from_position at ho
  split at ho
  · simp at ho
  · dsimp only at ho
    injection ho with ho
    subst ho
    intro g hg
    exact walk_loop_emitted engine session.gadget_type sec.start_address _ _ W st
      (fun g' => ∃ last_insn, g'.insns.getLast? = some last_insn ∧
        last_insn.group = session.gadget_type)
      (fun _ x g' last_insn _ _ hlast hgt hnew =>
        ⟨last_insn, by rw [gadget_new_insns hnew]; exact hlast, hgt.symm⟩)
      _ len 0 [] 0 (by simp) g hg

/-- C2 witness: the walk over the single ret byte at 0x1000 emits the
gadget gA, whose last instruction carries the requested group Ret. -/
theorem find_gadgets_terminator_witness :
    ∃ last_insn, gA.insns.getLast? = some last_insn ∧
      last_insn.group = fastSess.gadget_type :=
  find_gadgets_terminator fastSess engA secA 0 1 16 1 ⟨[gA], 1, false, false⟩
    rfl gA (by decide)

/- ## Claim C3: bounded rewind -/

/-- C3: for a disassembler that honours its interface (every decoded
instruction address is at least the requested base address) and a
section whose addresses fit in u64, every gadget the walker emits for a
candidate terminator at position pos starts no earlier than
max_rewind bytes before the terminator virtual address
sec.start_address + pos. -/
theorem walk_loop_addr_lower (engine : List Nat → Nat → Option (List Instruction))
    (gt : InstructionGroup) (sa s : Nat) (data : List Nat) (W st fuel sz nb : Nat)
    (heng : ∀ code addr x, engine code addr = some x → ∀ i ∈ x, addr ≤ i.address)
    (hov : sa + s + data.length < 2 ^ 64) :
    ∀ g ∈ (walk_loop engine gt sa s data W st fuel sz nb [] 0).gadgets,
      sa + s ≤ g.address := by
  refine walk_loop_emitted engine gt sa s data W st (fun g' => sa + s ≤ g'.address)
    (fun sz2 x g' last_insn hsz2 heng2 hlast hgt hnew => ?_) fuel sz nb [] 0 (by simp)
  cases x with
  | nil => simp [Gadget.new] at hnew
  | cons first rest =>
    have haddr := heng _ _ _ heng2 first (List.mem_cons_self first rest)
    have hmod : (sa + s + data.length - sz2) % 2 ^ 64 = sa + s + data.length - sz2 := by
      apply Nat.mod_eq_of_lt
      omega
    rw [hmod] at haddr
    rw [gadget_new_address hnew]
    omega

/-- C3: for a disassembler that honours its interface (every decoded
instruction address is at least the requested base address) and a
section whose addresses fit in u64, every gadget the walker emits for a
candidate terminator at position pos starts no earlier than
max_rewind bytes before the terminator virtual address
sec.start_address + pos. -/
theorem find_gadgets_bounded_rewind (session : Session)
    (engine : List Nat → Nat → Option (List Instruction)) (sec : Section)
    (pos len W st : Nat) (o : WalkOutcome)
    (heng : ∀ code addr x, engine code addr = some x → ∀ i ∈ x, addr ≤ i.address)
    (hova : sec.start_address + sec.data.length < 2 ^ 64)
    (ho : find_gadgets_from_position session engine sec pos len W st = some o) :
    ∀ g ∈ o.gadgets, sec.start_address + pos - W ≤ g.address := by
  unfold find_gadgets_from_position at ho
  split at ho
  case isTrue => simp at ho
  case isFalse hlen =>
    dsimp only at ho
    injection ho with ho
    subst ho
    intro g hg
    have hsle : (if pos < W then 0 else pos - W) ≤ pos := by split <;> omega
    have hsge : pos - W ≤ (if pos < W then 0 else pos - W) := by split <;> omega
    have hdlen : ((sec.data.take (pos + len)).drop (if pos < W then 0 else pos - W)).length
        = pos + len - (if pos < W then 0 else pos - W) := by
      rw [List.length_drop, List.length_take]
      omega
    have key := walk_loop_addr_lower engine session.gadget_type sec.start_address
      (if pos < W then 0 else pos - W) ((sec.data.take (pos + len)).drop
        (if pos < W then 0 else pos - W)) W st _ len 0 heng (by rw [hdlen]; omega) g hg
    omega

/-- C3 witness: the walk over the single ret byte at 0x1000, with the
engine decoding exactly that byte, emits gA, and the engine honours the
address contract; the rewind bound 0x1000 + 0 - 16 holds of gA. -/
theorem find_gadgets_bounded_rewind_witness :
    (∀ code addr x, engA code addr = some x → ∀ i ∈ x, addr ≤ i.address) ∧
    secA.start_address + 0 - 16 ≤ gA.address := by
  have hengA : ∀ code addr x, engA code addr = some x → ∀ i ∈ x, addr ≤ i.address := by
    intro code addr x h i hi
    unfold engA at h
    split at h
    · cases h
      have : i = retInsn addr := by simpa using hi
      subst this
      exact Nat.le_refl addr
    · cases h
  exact ⟨hengA, find_gadgets_bounded_rewind fastSess engA secA 0 1 16 1
    ⟨[gA], 1, false, false⟩ hengA (by decide) rfl gA (by decide)⟩

/- ## Claim C1: purity of emitted gadgets -/

/-- Helper: the backward filter of cs_disassemble leaves no Jump, Call
or Ret instruction strictly before the last position, provided the
accumulator already satisfies that shape.  Instructions of the groups
Privileged, Int and Iret are passed through untouched, since their
match arms are commented out in the source. -/
theorem cs_filter_rop_good : ∀ (rest acc : List Instruction),
    (∀ i ∈ acc.dropLast, i.group ≠ InstructionGroup.Jump ∧
      i.group ≠ InstructionGroup.Call ∧ i.group ≠ InstructionGroup.Ret) →
    ∀ i ∈ (cs_filter_rop acc rest).dropLast,
      i.group ≠ InstructionGroup.Jump ∧ i.group ≠ InstructionGroup.Call ∧
        i.group ≠ InstructionGroup.Ret := by
  intro rest
  induction rest with
  | nil => intro acc hacc; simpa [cs_filter_rop] using hacc
  | cons insn rest ih =>
    intro acc hacc
    have hstep : ∀ i ∈ ((insn :: acc).dropLast),
        (i.group ≠ InstructionGroup.Jump ∧ i.group ≠ InstructionGroup.Call ∧
          i.group ≠ InstructionGroup.Ret) ∨ i = insn := by
      cases acc with
      | nil => simp
      | cons b bs =>
        intro i hi
        rw [List.dropLast_cons₂] at hi
        rcases List.mem_cons.mp hi with hi2 | hi2
        · exact Or.inr hi2
        · exact Or.inl (hacc i hi2)
    cases hgr : insn.group
    case Jump | Call | Ret =>
      simp only [cs_filter_rop, hgr]
      by_cases hl : 0 < acc.length
      · rw [if_pos hl]; exact hacc
      · rw [if_neg hl]
        have hnil : acc = [] := List.length_eq_zero.mp (by omega)
        subst hnil
        exact ih [insn] (by simp)
    case Undefined | Int | Iret | Privileged =>
      simp only [cs_filter_rop, hgr]
      refine ih (insn :: acc) ?_
      intro i hi
      rcases hstep i hi with h | h
      · exact h
      · subst h
        rw [hgr]
        exact ⟨by simp, by simp, by simp⟩

/-- Helper: every successful result of the capstone layer satisfies the
backward-filter shape: no Jump, Call or Ret strictly before the last
instruction. -/
theorem cs_disassemble_good {decode : List Nat → Nat → List Instruction}
    {code : List Nat} {addr : Nat} {x : List Instruction}
    (h : cs_disassemble decode code addr = some x) :
    ∀ i ∈ x.dropLast,
      i.group ≠ InstructionGroup.Jump ∧ i.group ≠ InstructionGroup.Call ∧
        i.group ≠ InstructionGroup.Ret := by
  unfold cs_disassemble at h
  dsimp only at h
  split at h
  · exact absurd h (by simp)
  · injection h with h
    subst h
    exact cs_filter_rop_good _ [] (by simp)

/-- C1 counterexample: running the walker with the capstone filtering
layer over the bytes cd 80 c3 (int 0x80 then ret) emits, at candidate
size 3, a gadget whose instruction before the terminator has group Int;
the claimed disqualifying set includes Int, Iret and Privileged, but
the corresponding match arms of the filter are commented out in
engine.rs, so only Jump, Call and Ret cut the sequence. -/
theorem cs_walker_purity_counterexample :
    (find_gadgets_from_position fastSess (cs_disassemble decodeB) secB 2 1 16 1).map
        (fun o => o.gadgets.map (fun g => g.insns.map (fun i => i.group)))
      = some [[InstructionGroup.Ret], [InstructionGroup.Int, InstructionGroup.Ret]] ∧
    (find_gadgets_from_position fastSess (cs_disassemble decodeB) secB 2 1 16 1).map
        (fun o => o.gadgets.map (fun g => g.insns.dropLast.map (fun i => i.group)))
      = some [[], [InstructionGroup.Int]] := by
  exact ⟨rfl, rfl⟩

/-- C1 amended: for the walker composed with the capstone filtering
layer, no instruction strictly before the terminator of an emitted
gadget has group Jump, Call or Ret; the filter walks backward from the
terminator and drops the first such instruction together with
everything earlier.  Instructions of group Int, Iret or Privileged are
not dropped. -/
theorem find_gadgets_capstone_purity (session : Session)
    (decode : List Nat → Nat → List Instruction) (sec : Section)
    (pos len W st : Nat) (o : WalkOutcome)
    (ho : find_gadgets_from_position session (cs_disassemble decode) sec pos len W st
      = some o) :
    ∀ g ∈ o.gadgets, ∀ i ∈ g.insns.dropLast,
      i.group ≠ InstructionGroup.Jump ∧ i.group ≠ InstructionGroup.Call ∧
        i.group ≠ InstructionGroup.Ret := by
  unfold find_gadgets_from_position at ho
  split at ho
  case isTrue => simp at ho
  case isFalse hlen =>
    dsimp only at ho
    injection ho with ho
    subst ho
    intro g hg
    refine walk_loop_emitted (cs_disassemble decode) session.gadget_type
      sec.start_address _ _ W st
      (fun g' => ∀ i ∈ g'.insns.dropLast,
        i.group ≠ InstructionGroup.Jump ∧ i.group ≠ InstructionGroup.Call ∧
          i.group ≠ InstructionGroup.Ret)
      (fun sz x g' last_insn hsz heng hlast hgt hnew => ?_) _ len 0 [] 0 (by simp) g hg
    intro i hi
    rw [gadget_new_insns hnew] at hi
    exact cs_disassemble_good heng i hi

/-- C1 witness: the walk over cd 80 c3 with the capstone layer emits
the gadget with instruction groups Int then Ret; the amended purity
property holds of it, the Int instruction not being Jump, Call or Ret. -/
theorem find_gadgets_capstone_purity_witness :
    (intInsn 0x2000).group ≠ InstructionGroup.Jump ∧
    (intInsn 0x2000).group ≠ InstructionGroup.Call ∧
    (intInsn 0x2000).group ≠ InstructionGroup.Ret :=
  find_gadgets_capstone_purity fastSess decodeB secB 2 1 16 1
    ⟨[⟨0x2002, [retInsn 0x2002], 1, [0xc3]⟩,
      ⟨0x2000, [intInsn 0x2000, retInsn 0x2002], 3, [0xcd, 0x80, 0xc3]⟩], 3, false, false⟩
    rfl
    ⟨0x2000, [intInsn 0x2000, retInsn 0x2002], 3, [0xcd, 0x80, 0xc3]⟩
    (by decide)
    (intInsn 0x2000)
    (by decide)

/- ## Claim C9: walker termination and cost -/

/-- Helper: the loop performs at most (window + step - sz) / step
further disassembly calls, each iteration making one call and growing
sz by step until the guard fires. -/
theorem walk_loop_calls_le (engine : List Nat → Nat → Option (List Instruction))
    (gt : InstructionGroup) (sa s : Nat) (data : List Nat) (W st : Nat)
    (hst : 0 < st) :
    ∀ fuel sz nb gadgets calls, st ≤ sz →
      (walk_loop engine gt sa s data W st fuel sz nb gadgets calls).calls
        ≤ calls + (data.length + st - sz) / st := by
  intro fuel
  induction fuel with
  | zero => intro sz nb gadgets calls hsz; exact Nat.le_add_right _ _
  | succ fuel ih =>
    intro sz nb gadgets calls hsz
    rw [walk_loop]
    have hws : wrapping_sub64 sz st = sz - st := if_pos hsz
    by_cases h1 : data.length ≤ wrapping_sub64 sz st
    · rw [if_pos h1]; exact Nat.le_add_right _ _
    rw [if_neg h1]
    rw [hws] at h1
    by_cases h2 : data.length < sz
    · rw [if_pos h2]; exact Nat.le_add_right _ _
    rw [if_neg h2]
    have hdiv : (data.length + st - sz) / st = (data.length - sz) / st + 1 := by
      have h : data.length + st - sz = (data.length - sz) + st := by omega
      rw [h, Nat.add_div_right _ hst]
    have hdiv2 : (data.length + st - (sz + st)) / st = (data.length - sz) / st := by
      have h : data.length + st - (sz + st) = data.length - sz := by omega
      rw [h]
    cases heng : engine (data.drop (data.length - sz))
        ((sa + s + data.length - sz) % 2 ^ 64) with
    | some x =>
      have hrec := ih (sz + st) 0 (walk_emit gt gadgets x) (calls + 1) (by omega)
      refine le_trans hrec ?_
      rw [hdiv2, hdiv]
      omega
    | none =>
      by_cases h3 : nb + 1 = W
      · rw [if_pos h3]
        show calls + 1 ≤ calls + (data.length + st - sz) / st
        rw [hdiv]
        exact Nat.add_le_add_left (Nat.succ_le_succ (Nat.zero_le _)) calls
      · rw [if_neg h3]
        have hrec := ih (sz + st) (nb + 1) gadgets (calls + 1) (by omega)
        refine le_trans hrec ?_
        rw [hdiv2, hdiv]
        omega

/-- Helper: the loop reaches its own exit, rather than exhausting the
fuel, whenever the fuel exceeds (window + step - sz) / step. -/
theorem walk_loop_fuel_enough (engine : List Nat → Nat → Option (List Instruction))
    (gt : InstructionGroup) (sa s : Nat) (data : List Nat) (W st : Nat)
    (hst : 0 < st) :
    ∀ fuel sz nb gadgets calls, st ≤ sz →
      (data.length + st - sz) / st < fuel →
      (walk_loop engine gt sa s data W st fuel sz nb gadgets calls).fuel_out = false := by
  intro fuel
  induction fuel with
  | zero =>
    intro sz nb gadgets calls hsz hf
    exact absurd hf (Nat.not_lt_zero _)
  | succ fuel ih =>
    intro sz nb gadgets calls hsz hf
    rw [walk_loop]
    have hws : wrapping_sub64 sz st = sz - st := if_pos hsz
    by_cases h1 : data.length ≤ wrapping_sub64 sz st
    · rw [if_pos h1]
    rw [if_neg h1]
    rw [hws] at h1
    by_cases h2 : data.length < sz
    · rw [if_pos h2]
    rw [if_neg h2]
    have hdiv : (data.length + st - sz) / st = (data.length - sz) / st + 1 := by
      have h : data.length + st - sz = (data.length - sz) + st := by omega
      rw [h, Nat.add_div_right _ hst]
    have hdiv2 : (data.length + st - (sz + st)) / st = (data.length - sz) / st := by
      have h : data.length + st - (sz + st) = data.length - sz := by omega
      rw [h]
    have hf2 : (data.length + st - (sz + st)) / st < fuel := by
      rw [hdiv2]
      rw [hdiv] at hf
      omega
    cases heng : engine (data.drop (data.length - sz))
        ((sa + s + data.length - sz) % 2 ^ 64) with
    | some x => exact ih (sz + st) 0 (walk_emit gt gadgets x) (calls + 1) (by omega) hf2
    | none =>
      by_cases h3 : nb + 1 = W
      · rw [if_pos h3]
      · rw [if_neg h3]
        exact ih (sz + st) (nb + 1) gadgets (calls + 1) (by omega) hf2

/-- C9 amended: for a positive step no larger than the candidate
length, the backward walk terminates through its own exit conditions
(the fuel of the model is never exhausted), and it performs at most
W / step + 1 disassembly calls, one more than the W / step the claim
states: sz ranges over the values len, len + step, ..., up to the full
window of length min(pos, W) + len, which is min(pos, W) / step + 1
candidate slices. -/
theorem find_gadgets_cost (session : Session)
    (engine : List Nat → Nat → Option (List Instruction)) (sec : Section)
    (pos len W st : Nat) (o : WalkOutcome)
    (hst : 0 < st) (hlen : st ≤ len)
    (ho : find_gadgets_from_position session engine sec pos len W st = some o) :
    o.fuel_out = false ∧ o.calls ≤ W / st + 1 := by
  unfold find_gadgets_from_position at ho
  split at ho
  case isTrue => simp at ho
  case isFalse hsec =>
    dsimp only at ho
    injection ho with ho
    subst ho
    set data := (sec.data.take (pos + len)).drop (if pos < W then 0 else pos - W) with hdata
    have hD : data.length = pos + len - (if pos < W then 0 else pos - W) := by
      rw [hdata, List.length_drop, List.length_take]
      omega
    have hDW : data.length ≤ W + len := by
      rw [hD]; split <;> omega
    constructor
    · apply walk_loop_fuel_enough engine session.gadget_type sec.start_address
        (if pos < W then 0 else pos - W) data W st hst (data.length + 2) len 0 [] 0 hlen
      have hm : (data.length + st - len) / st ≤ data.length + 1 := by
        calc (data.length + st - len) / st
            ≤ (data.length + st) / st := Nat.div_le_div_right (Nat.sub_le _ _)
          _ = data.length / st + 1 := Nat.add_div_right _ hst
          _ ≤ data.length + 1 := Nat.add_le_add_right (Nat.div_le_self _ _) 1
      exact Nat.lt_succ_of_le hm
    · have hcalls := walk_loop_calls_le engine session.gadget_type sec.start_address
        (if pos < W then 0 else pos - W) data W st hst (data.length + 2) len 0 [] 0 hlen
      calc (walk_loop engine session.gadget_type sec.start_address
            (if pos < W then 0 else pos - W) data W st (data.length + 2) len 0 [] 0).calls
          ≤ 0 + (data.length + st - len) / st := hcalls
        _ = (data.length + st - len) / st := Nat.zero_add _
        _ ≤ (W + st) / st := Nat.div_le_div_right (by omega)
        _ = W / st + 1 := Nat.add_div_right _ hst

/-- C9 counterexample: a twenty-byte window with step 4 and rewind
bound 16 (the ARM values) performs five disassembly calls, for the
candidate sizes 4, 8, 12, 16 and 20, exceeding the claimed bound
W / step = 4. -/
theorem find_gadgets_cost_counterexample :
    (find_gadgets_from_position fastSess engC secC 16 4 16 4).map (fun o => o.calls)
        = some 5 ∧
    ¬(5 ≤ 16 / 4) := by
  exact ⟨rfl, by decide⟩

/-- C9 witness: the same twenty-byte run satisfies the amended bound,
terminating with five calls, within W / step + 1 = 5. -/
theorem find_gadgets_cost_witness :
    (0 < 4 ∧ 4 ≤ 4) ∧
    ((⟨[], 5, false, false⟩ : WalkOutcome).fuel_out = false ∧
      (⟨[], 5, false, false⟩ : WalkOutcome).calls ≤ 16 / 4 + 1) :=
  ⟨⟨by decide, by decide⟩,
    find_gadgets_cost fastSess engC secC 16 4 16 4 ⟨[], 5, false, false⟩
      (by decide) (by decide) rfl⟩

/- ## Claim C4: the pattern matcher against its specification -/

/-- Helper: pointwise equal predicates give the same all. -/
theorem all_congr_mem (l : List Nat) (f g : Nat → Bool)
    (h : ∀ x ∈ l, f x = g x) : l.all f = l.all g := by
  induction l with
  | nil => rfl
  | cons a t ih =>
    simp only [List.all_cons, h a (by simp), ih (fun x hx => h x (by simp [hx]))]

/-- Helper: on a window of exactly the pattern length, with a mask at
least as long, the lazy comparison never aborts and decides exactly the
pointwise masked equality. -/
theorem masked_window_eq_spec : ∀ (opcode mask chunk : List Nat),
    chunk.length = opcode.length → opcode.length ≤ mask.length →
    masked_window_eq chunk mask opcode
      = some ((List.range opcode.length).all
          (fun i => decide (chunk.getD i 0 &&& mask.getD i 0 = opcode.getD i 0))) := by
  intro opcode
  induction opcode with
  | nil =>
    intro mask chunk hlen _
    have hc : chunk = [] := List.length_eq_zero.mp (by simpa using hlen)
    subst hc
    simp [masked_window_eq]
  | cons b bs ih =>
    intro mask chunk hlen hmask
    cases chunk with
    | nil => simp at hlen
    | cons c cs =>
      cases mask with
      | nil => simp at hmask
      | cons m ms =>
        have hlen2 : cs.length = bs.length := by simpa using hlen
        have hmask2 : bs.length ≤ ms.length := by simpa using hmask
        simp only [masked_window_eq, List.length_cons]
        rw [List.range_succ_eq_map]
        simp only [List.all_cons, List.all_map, Function.comp_def, List.getD_cons_zero,
          List.getD_cons_succ]
        by_cases hc : c &&& m = b
        · rw [if_pos hc, ih ms cs hlen2 hmask2]
          simp [hc]
        · rw [if_neg hc]
          simp [hc]

/-- Helper: reading inside a window equals reading the memory at the
shifted offset. -/
theorem window_getD (memory : List Nat) (k n : Nat) (hk : k + n ≤ memory.length) :
    ((memory.drop k).take n).length = n ∧
    ∀ i, i < n → ((memory.drop k).take n).getD i 0 = memory.getD (k + i) 0 := by
  constructor
  · rw [List.length_take, List.length_drop]
    omega
  · intro i hi
    rw [List.getD_eq_getElem?_getD, List.getD_eq_getElem?_getD, List.getElem?_take,
      if_pos hi, List.getElem?_drop]

/-- Helper: the window scan over any list of in-bounds offsets returns
exactly the offsets whose window matches, paired with the pattern
length, in order. -/
theorem scan_windows_spec (memory opcode mask : List Nat)
    (hmask : opcode.length ≤ mask.length) :
    ∀ ks : List Nat, (∀ k ∈ ks, k + opcode.length ≤ memory.length) →
      scan_windows opcode mask (ks.map (fun k => (k, (memory.drop k).take opcode.length)))
        = some (ks.filterMap (fun k =>
            if (List.range opcode.length).all
                (fun i => decide (memory.getD (k + i) 0 &&& mask.getD i 0 = opcode.getD i 0))
            then some (k, opcode.length) else none)) := by
  intro ks
  induction ks with
  | nil => intro _; rfl
  | cons k ks ih =>
    intro hb
    have hk := hb k (by simp)
    obtain ⟨hwl, hwi⟩ := window_getD memory k opcode.length hk
    have hmw := masked_window_eq_spec opcode mask ((memory.drop k).take opcode.length) hwl hmask
    have hall : (List.range opcode.length).all
        (fun i => decide (((memory.drop k).take opcode.length).getD i 0 &&&
          mask.getD i 0 = opcode.getD i 0))
        = (List.range opcode.length).all
          (fun i => decide (memory.getD (k + i) 0 &&& mask.getD i 0 = opcode.getD i 0)) := by
      apply all_congr_mem
      intro i hi
      rw [hwi i (List.mem_range.mp hi)]
    rw [hall] at hmw
    have ih2 := ih (fun k2 hk2 => hb k2 (by simp [hk2]))
    cases hmatch : (List.range opcode.length).all
        (fun i => decide (memory.getD (k + i) 0 &&& mask.getD i 0 = opcode.getD i 0)) with
    | true =>
      rw [hmatch] at hmw
      simp only [List.map_cons, scan_windows, hmw, List.filterMap_cons, hmatch, if_true, ih2]
      rfl
    | false =>
      rw [hmatch] at hmw
      simp only [List.map_cons, scan_windows, hmw, List.filterMap_cons, hmatch, if_false, ih2]
      rfl

/-- C4 amended: for every byte window and strategy, and every pattern
list whose patterns have a non-empty opcode and a mask of the same
length (as the data model requires and as every table of every profile
satisfies), the candidate search returns exactly the result of the
specification search: the pairs (k, len opcode) at the offsets where
the masked comparison holds, for every pattern under Complete and for
the first pattern yielding a match under Fast, ascending by offset
within a pattern and in declaration order across patterns, without
erroring.  Without the non-emptiness restriction the source aborts, see
the counterexample. -/
theorem collect_previous_instructions_spec (session : Session)
    (patterns : List (List Nat × List Nat)) (memory : List Nat)
    (hwf : ∀ p ∈ patterns, p.1 ≠ [] ∧ p.1.length = p.2.length) :
    collect_previous_instructions session patterns memory
      = some (find_candidates_spec memory session.profile_type patterns) := by
  induction patterns with
  | nil => rfl
  | cons p rest ih =>
    obtain ⟨hne, hlen⟩ := hwf p (by simp)
    have ih2 := ih (fun q hq => hwf q (by simp [hq]))
    obtain ⟨bytes, mask⟩ := p
    have hscan : scan_windows bytes mask (windows_enumerated bytes.length memory)
        = some (spec_pattern_matches memory bytes mask) := by
      unfold windows_enumerated spec_pattern_matches
      exact scan_windows_spec memory bytes mask (le_of_eq hlen) (List.range _)
        (fun k hk => by have := List.mem_range.mp hk; omega)
    simp only [collect_previous_instructions, find_candidates_spec]
    rw [if_neg (by simpa using hne)]
    rw [hscan]
    simp only []
    by_cases hemp : (spec_pattern_matches memory bytes mask).length = 0
    · have hms : spec_pattern_matches memory bytes mask = [] := List.length_eq_zero.mp hemp
      rw [if_neg (by omega)]
      cases hpt : session.profile_type with
      | Fast =>
        rw [hpt] at ih2
        rw [ih2, hms]
        simp
      | Complete =>
        rw [hpt] at ih2
        rw [ih2, hms]
        simp
    · rw [if_pos (by omega)]
      cases hpt : session.profile_type with
      | Fast =>
        have hne2 : (spec_pattern_matches memory bytes mask).isEmpty = false := by
          cases hval : spec_pattern_matches memory bytes mask with
          | nil => exact absurd (by simp [hval]) hemp
          | cons a t => rfl
        rw [if_neg (by rw [hne2]; exact Bool.false_ne_true)]
      | Complete =>
        rw [hpt] at ih2
        rw [ih2]
        rfl

/-- C4 witness: on the window 48 c3 c3 cb with the X86 return table
(all opcodes non-empty with masks of equal length) and the Fast
strategy, the candidate search agrees with the specification search. -/
theorem collect_previous_instructions_spec_witness :
    (∀ p ∈ X86.profile.ret_insns, p.1 ≠ [] ∧ p.1.length = p.2.length) ∧
    collect_previous_instructions fastSess X86.profile.ret_insns [0x48, 0xc3, 0xc3, 0xcb]
      = some (find_candidates_spec [0x48, 0xc3, 0xc3, 0xcb] RopProfileStrategy.Fast
          X86.profile.ret_insns) :=
  ⟨by decide, collect_previous_instructions_spec fastSess X86.profile.ret_insns
    [0x48, 0xc3, 0xc3, 0xcb] (by decide)⟩

/- ## Claim C6: deduplication -/

/-- Helper: ASCII case-insensitive equality is reflexive. -/
theorem eq_ignore_ascii_case_refl (s : String) : eq_ignore_ascii_case s s = true := by
  simp [eq_ignore_ascii_case]

/-- Helper: the dedup loop keeps a subsequence of its input. -/
theorem dedup_by_go_sublist (f : α → α → Bool) : ∀ (l : List α) (last : α),
    (dedup_by_go f last l).Sublist l := by
  intro l
  induction l with
  | nil => intro last; simp [dedup_by_go]
  | cons y ys ih =>
    intro last
    by_cases h : f y last = true
    · simp only [dedup_by_go, h, if_true]
      exact List.Sublist.cons y (ih last)
    · simp only [dedup_by_go, h, if_false]
      exact List.Sublist.cons₂ y (ih y)

/-- Helper: dedup keeps a subsequence of its input. -/
theorem dedup_by_sublist (f : α → α → Bool) (l : List α) :
    (dedup_by f l).Sublist l := by
  cases l with
  | nil => simp [dedup_by]
  | cons x xs => exact List.Sublist.cons₂ x (dedup_by_go_sublist f xs x)

/-- Helper: consecutive retained elements of the dedup loop are not in
the same bucket, each being compared with the last retained one. -/
theorem dedup_by_go_chain (f : α → α → Bool) : ∀ (l : List α) (last : α),
    List.Chain (fun a b => f b a = false) last (dedup_by_go f last l) := by
  intro l
  induction l with
  | nil => intro last; exact List.Chain.nil
  | cons y ys ih =>
    intro last
    by_cases h : f y last = true
    · simp only [dedup_by_go, h, if_true]
      exact ih last
    · simp only [dedup_by_go, h, if_false]
      exact List.Chain.cons (by simpa using h) (ih y)

/-- Helper: two adjacent-pair properties combine. -/
theorem chain'_and {α : Type _} (R S : α → α → Prop) : ∀ (l : List α),
    List.Chain' R l → List.Chain' S l → List.Chain' (fun a b => R a b ∧ S a b) l := by
  intro l
  induction l with
  | nil => intro _ _; trivial
  | cons a t ih =>
    cases t with
    | nil => intro _ _; simp
    | cons b t2 =>
      intro hr hs
      rw [List.chain'_cons] at hr hs ⊢
      exact ⟨⟨hr.1, hs.1⟩, ih hr.2 hs.2⟩

/-- Helper: the byte-lexicographic comparison is total. -/
theorem char_list_le_total : ∀ a b, char_list_le a b = true ∨ char_list_le b a = true := by
  intro a
  induction a with
  | nil => intro b; exact Or.inl rfl
  | cons c cs ih =>
    intro b
    cases b with
    | nil => exact Or.inr rfl
    | cons d ds =>
      by_cases h1 : c.toNat < d.toNat
      · left; simp [char_list_le, h1]
      by_cases h2 : d.toNat < c.toNat
      · right; simp [char_list_le, h2]
      rcases ih ds with h | h
      · left; simp [char_list_le, h1, h2, h]
      · right; simp [char_list_le, h1, h2, h]

/-- Helper: the byte-lexicographic comparison is transitive. -/
theorem char_list_le_trans : ∀ a b c, char_list_le a b = true → char_list_le b c = true →
    char_list_le a c = true := by
  intro a
  induction a with
  | nil => intro b c _ _; rfl
  | cons x xs ih =>
    intro b c hab hbc
    cases b with
    | nil => simp [char_list_le] at hab
    | cons y ys =>
      cases c with
      | nil => simp [char_list_le] at hbc
      | cons z zs =>
        simp only [char_list_le] at hab hbc ⊢
        by_cases h1 : x.toNat < y.toNat
        · by_cases h2 : y.toNat < z.toNat
          · rw [if_pos (by omega)]
          · by_cases h3 : z.toNat < y.toNat
            · rw [if_neg h2, if_pos h3] at hbc
              exact absurd hbc (by simp)
            · rw [if_pos (by omega)]
        · by_cases h2 : y.toNat < x.toNat
          · rw [if_neg h1, if_pos h2] at hab
            exact absurd hab (by simp)
          · rw [if_neg h1, if_neg h2] at hab
            by_cases h3 : y.toNat < z.toNat
            · rw [if_pos (by omega)]
            · by_cases h4 : z.toNat < y.toNat
              · rw [if_neg h3, if_pos h4] at hbc
                exact absurd hbc (by simp)
              · rw [if_neg h3, if_neg h4] at hbc
                rw [if_neg (by omega), if_neg (by omega)]
                exact ih ys zs hab hbc

/-- Helper: the byte-lexicographic comparison is antisymmetric. -/
theorem char_list_le_antisymm : ∀ a b, char_list_le a b = true → char_list_le b a = true →
    a = b := by
  intro a
  induction a with
  | nil =>
    intro b _ hba
    cases b with
    | nil => rfl
    | cons d ds => simp [char_list_le] at hba
  | cons c cs ih =>
    intro b hab hba
    cases b with
    | nil => simp [char_list_le] at hab
    | cons d ds =>
      simp only [char_list_le] at hab hba
      by_cases h1 : c.toNat < d.toNat
      · rw [if_neg (by omega), if_pos h1] at hba
        exact absurd hba (by simp)
      · by_cases h2 : d.toNat < c.toNat
        · rw [if_neg h1, if_pos h2] at hab
          exact absurd hab (by simp)
        · rw [if_neg h1, if_neg h2] at hab
          rw [if_neg (by omega), if_neg (by omega)] at hba
          have htn : c.toNat = d.toNat := by omega
          have hcd : c = d := Char.ext (UInt32.ext htn)
          rw [hcd, ih ds hab hba]

/-- Helper: string comparison is total. -/
theorem string_le_total (a b : String) : string_le a b = true ∨ string_le b a = true :=
  char_list_le_total a.data b.data

/-- Helper: string comparison is transitive. -/
theorem string_le_trans {a b c : String} (hab : string_le a b = true)
    (hbc : string_le b c = true) : string_le a c = true :=
  char_list_le_trans a.data b.data c.data hab hbc

/-- Helper: string comparison is antisymmetric. -/
theorem string_le_antisymm {a b : String} (hab : string_le a b = true)
    (hba : string_le b a = true) : a = b :=
  String.ext (char_list_le_antisymm a.data b.data hab hba)

/-- Helper: deduplicating a text-sorted gadget list under ASCII
case-insensitive equality leaves no two gadgets with byte-equal text:
equal texts sit adjacently in the sorted order, are case-insensitively
equal, and all but the first are removed against the last retained
element. -/
theorem dedup_by_pairwise_ne (l : List Gadget)
    (hsort : List.Pairwise
      (fun a b : Gadget => string_le (Gadget.text a false) (Gadget.text b false) = true) l) :
    List.Pairwise (fun a b : Gadget => Gadget.text a false ≠ Gadget.text b false)
      (dedup_by (fun a b =>
        eq_ignore_ascii_case (Gadget.text a false) (Gadget.text b false)) l) := by
  cases l with
  | nil => exact List.Pairwise.nil
  | cons x xs =>
    have hsub := dedup_by_sublist
      (fun a b : Gadget => eq_ignore_ascii_case (Gadget.text a false) (Gadget.text b false))
      (x :: xs)
    have hsorted := List.Pairwise.sublist hsub hsort
    have hchain : List.Chain' (fun a b : Gadget =>
        eq_ignore_ascii_case (Gadget.text b false) (Gadget.text a false) = false)
        (dedup_by (fun a b =>
          eq_ignore_ascii_case (Gadget.text a false) (Gadget.text b false)) (x :: xs)) := by
      simp only [dedup_by]
      exact dedup_by_go_chain _ xs x
    have hchainle := List.Pairwise.chain' hsorted
    have hboth := chain'_and _ _ _ hchainle hchain
    have hlt : List.Chain' (fun a b : Gadget =>
        string_le (Gadget.text a false) (Gadget.text b false) = true ∧
          Gadget.text a false ≠ Gadget.text b false)
        (dedup_by (fun a b =>
          eq_ignore_ascii_case (Gadget.text a false) (Gadget.text b false)) (x :: xs)) := by
      refine List.Chain'.imp ?_ hboth
      intro a b hab
      refine ⟨hab.1, fun heq => ?_⟩
      have hf := hab.2
      rw [heq] at hf
      rw [eq_ignore_ascii_case_refl] at hf
      exact by simp at hf
    haveI : IsTrans Gadget (fun a b : Gadget =>
        string_le (Gadget.text a false) (Gadget.text b false) = true ∧
          Gadget.text a false ≠ Gadget.text b false) :=
      ⟨fun _ _ _ hab hbc =>
        ⟨string_le_trans hab.1 hbc.1,
          fun heq => hab.2 (string_le_antisymm hab.1 (by rw [heq]; exact hbc.1))⟩⟩
    exact (List.chain'_iff_pairwise.mp hlt).imp (fun h => h.2)

/-- C6 counterexample: with gadgets whose texts are A, B and a (in that
address order), the unique-only pipeline keeps all three: the
case-sensitive sort by text places B between A and a, the
case-insensitive adjacent dedup therefore never compares A with a, and
the final list holds two gadgets whose texts are equal under ASCII
case-insensitive comparison. -/
theorem collect_all_gadgets_unique_counterexample :
    (((collect_all_gadgets uniqSess false 0 [mkG 1 "A", mkG 2 "B", mkG 3 "a"]).1).map
        (fun g => Gadget.text g false)) = ["A ; ", "B ; ", "a ; "] ∧
    eq_ignore_ascii_case "A ; " "a ; " = true ∧
    ("A ; " : String) ≠ "a ; " := by
  refine ⟨by decide, by decide, by decide⟩

/-- C6 amended: when the session asks for unique gadgets, the final
list contains no two gadgets with byte-equal uncolored text; the
mechanism is the one the claim describes (sort by text, remove adjacent
duplicates under ASCII case-insensitive equality against the last
retained element), but it guarantees distinctness only up to
case-sensitive equality, see the counterexample. -/
theorem collect_all_gadgets_unique_text (sess : Session) (is_64b : Bool) (entry : Nat)
    (found : List Gadget) (huniq : sess.unique_only = true) :
    ((collect_all_gadgets sess is_64b entry found).1).Pairwise
      (fun a b => Gadget.text a false ≠ Gadget.text b false) := by
  have h1 : (collect_all_gadgets sess is_64b entry found).1
      = List.insertionSort (fun a b : Gadget => a.address ≤ b.address)
          (dedup_by (fun a b =>
              eq_ignore_ascii_case (Gadget.text a false) (Gadget.text b false))
            (List.insertionSort
              (fun a b : Gadget =>
                string_le (Gadget.text a false) (Gadget.text b false) = true) found)) := by
    simp [collect_all_gadgets, sort_by_address, sort_by_text, huniq]
  rw [h1]
  haveI : IsTotal Gadget (fun a b : Gadget =>
      string_le (Gadget.text a false) (Gadget.text b false) = true) :=
    ⟨fun a b => string_le_total _ _⟩
  haveI : IsTrans Gadget (fun a b : Gadget =>
      string_le (Gadget.text a false) (Gadget.text b false) = true) :=
    ⟨fun _ _ _ hab hbc => string_le_trans hab hbc⟩
  have hsorted := List.sorted_insertionSort
    (fun a b : Gadget => string_le (Gadget.text a false) (Gadget.text b false) = true) found
  have hdedup := dedup_by_pairwise_ne _ hsorted
  have hperm := List.perm_insertionSort (fun a b : Gadget => a.address ≤ b.address)
    (dedup_by (fun a b =>
        eq_ignore_ascii_case (Gadget.text a false) (Gadget.text b false))
      (List.insertionSort
        (fun a b : Gadget =>
          string_le (Gadget.text a false) (Gadget.text b false) = true) found))
  exact (List.Perm.pairwise_iff (fun h => h.symm) hperm).mpr hdedup

/-- C6 witness: the unique-only flag of uniqSess is set, and the
pipeline output on the three dedup fixtures is pairwise distinct in
text. -/
theorem collect_all_gadgets_unique_text_witness :
    uniqSess.unique_only = true ∧
    ((collect_all_gadgets uniqSess false 0 [mkG 1 "A", mkG 2 "B", mkG 3 "a"]).1).Pairwise
      (fun a b => Gadget.text a false ≠ Gadget.text b false) :=
  ⟨rfl, collect_all_gadgets_unique_text uniqSess false 0 [mkG 1 "A", mkG 2 "B", mkG 3 "a"] rfl⟩

/- ## Claim C7: file emission -/

/-- C7 counterexample: writing the single ret gadget at VA 0x1000 to a
file with entry point 0x400000 produces the line 0x401000, the sum of
the entry point and the gadget address, not the gadget virtual address
as-is. -/
theorem collect_all_gadgets_file_counterexample :
    (collect_all_gadgets fileSess true 0x400000 [gRet]).2
        = EmittedOutput.file ["0x401000 | ret ; \n"] ∧
    gRet.address = 0x1000 ∧
    ("0x401000 | ret ; \n" : String) ≠ "0x1000 | ret ; \n" := by
  refine ⟨by decide, rfl, by decide⟩

/-- C7 amended: when the output sink is a file, the emitted lines are
exactly one line per gadget of the final list, in order, each holding
the unpadded hex rendering of entry_point + address (u64 wrapping
addition), a separator, the uncolored text of the gadget, and a
trailing line break; color is forced off in that the rendering never
consults the session color flag. -/
theorem collect_all_gadgets_file_lines (sess : Session) (fname : String) (is_64b : Bool)
    (entry : Nat) (found : List Gadget)
    (hout : sess.output = RopGadgetOutput.file fname) :
    (collect_all_gadgets sess is_64b entry found).2
      = EmittedOutput.file
          (((collect_all_gadgets sess is_64b entry found).1).map
            (fun g => fmt_sharp_hex ((entry + g.address) % 2 ^ 64) ++ " | " ++
              Gadget.text g false ++ "\n")) := by
  simp [collect_all_gadgets, hout]

/-- C7 witness: the file-sink session emits exactly the rendered lines
of its final gadget list. -/
theorem collect_all_gadgets_file_lines_witness :
    fileSess.output = RopGadgetOutput.file "rop.txt" ∧
    (collect_all_gadgets fileSess true 0x400000 [gRet]).2
      = EmittedOutput.file
          (((collect_all_gadgets fileSess true 0x400000 [gRet]).1).map
            (fun g => fmt_sharp_hex ((0x400000 + g.address) % 2 ^ 64) ++ " | " ++
              Gadget.text g false ++ "\n")) :=
  ⟨rfl, collect_all_gadgets_file_lines fileSess "rop.txt" true 0x400000 [gRet] rfl⟩

end RopGadget
